import Mathlib

/-!
# Verification of the SQL EDR provider core

A shallow embedding of the `pygeoapi_sql_edr` provider (files
`src/pygeoapi_sql_edr/edr.py`, `src/pygeoapi_sql_edr/lib.py`, `src/pg_edr/lib.py`).

The relational store is modelled as a list of observation rows (one row per
observation, carrying location id, time, parameter id/name/unit, result value
and geometry), matching the joined row shape the provider queries.  Query
combinators get the usual deterministic list semantics: `WHERE` is `filter`,
`DISTINCT ON (c)` keeps the first row per key in scan order, `ORDER BY c DESC`
sorts descending, `LIMIT n` is `take n`, `first()` is `head?`, and a
`LEFT OUTER JOIN` enumerates, for each left row, its matches in table order
(with a single null-extended row when there is none).  The embedding models a
single-table configuration (`external_tables` empty, so `self.joins == []`),
which the code supports as the default.  Fallible Python code is modelled with
`Except`: an uncaught `TypeError` / `KeyError` / `AttributeError` and the
request-level `ValidationError` become error values.
-/

deriving instance DecidableEq for Except

namespace SqlEdr

/-- Errors that can escape the provider's methods. -/
inductive Err
  | typeError
  | keyError
  | validationError
  | attributeError
deriving DecidableEq, Repr

/-- Geometry values stored in the geometry column (coordinates are modelled
as integers; no arithmetic is performed on them). -/
inductive Geom
  | point (x y : Int)
  | polygon (vertices : List (Int × Int))
deriving DecidableEq, Repr

/-- One joined observation row as the provider queries it: location id,
time, parameter id / display name / unit, result value, geometry. -/
structure Row where
  loc : String
  time : Int
  param : String
  paramName : String
  paramUnit : String
  value : Int
  geom : Geom
deriving DecidableEq, Repr

/-- A field-catalog entry: `{"type": "number", "title": ..., "x-ogc-unit": ...}`
(`EDRProvider.get_fields`). -/
structure FieldMeta where
  typ : String
  title : String
  unit : String
deriving DecidableEq, Repr

/-- One entry of the `parameters` block (`EDRProvider._get_parameters`):
`name` and `unit.label.en` are both the catalog title, `unit.symbol.value`
is the catalog unit. -/
structure ParamDef where
  id : String
  name : String
  unitLabel : String
  unitSymbol : String
deriving DecidableEq, Repr

/-- One `ranges[p]` NdArray of a Coverage. -/
structure Range where
  dataType : String
  axisNames : List String
  shape : List Nat
  values : List (Option Int)
deriving DecidableEq, Repr

/-- A GeoJSON feature as built by `EDRProvider._sqlalchemy_to_feature`:
the `datetime` property `concat(min(t), "/", max(t))` is kept as the pair
of endpoints. -/
structure Feature where
  id : String
  dtMin : Option Int
  dtMax : Option Int
  paramNames : List String
  geometry : Option Geom
deriving DecidableEq, Repr

/-- The FeatureCollection response of `EDRProvider.locations`. -/
structure FeatureCollection where
  features : List Feature
  parameters : List ParamDef
  numberReturned : Nat
deriving DecidableEq, Repr

/-- The Coverage response of `EDRProvider.location` (axes flattened into
dedicated fields). -/
structure Coverage where
  domainType : String
  tAxis : List Int
  xAxis : List Int
  yAxis : List Int
  composite : Option Geom
  parameters : List (String × ParamDef)
  ranges : List (String × Range)
deriving DecidableEq, Repr

/-- Result of the dispatching `locations` entry point. -/
inductive LocResult
  | fc (f : FeatureCollection)
  | cov (c : Coverage)
deriving DecidableEq, Repr

/-- A `[minX, minY, maxX, maxY]` bounding box argument. -/
structure BBox where
  minX : Int
  minY : Int
  maxX : Int
  maxY : Int
deriving DecidableEq, Repr

/-- `DISTINCT ON (k)` with keep-first semantics, via an accumulator of
already seen keys. -/
def distinctOnAux {α β : Type} [DecidableEq β] (k : α → β) (seen : List β) :
    List α → List α
  | [] => []
  | x :: xs =>
    if k x ∈ seen then distinctOnAux k seen xs
    else x :: distinctOnAux k (k x :: seen) xs

/-- `DISTINCT ON (k)`: keep the first row per key in scan order. -/
def distinctOn {α β : Type} [DecidableEq β] (k : α → β) (l : List α) : List α :=
  distinctOnAux k [] l

/-- Descending insertion used by `ORDER BY c DESC`. -/
def insertDesc (t : Int) : List Int → List Int
  | [] => [t]
  | x :: xs => if t ≤ x then x :: insertDesc t xs else t :: x :: xs

/-- Descending sort used by `ORDER BY c DESC`. -/
def sortDesc (l : List Int) : List Int := l.foldr insertDesc []

/-- Spatial intersection of a geometry with the `ST_MakeEnvelope` rectangle. -/
def intersectsEnvelope (g : Geom) (b : BBox) : Bool :=
  match g with
  | .point x y => b.minX ≤ x && x ≤ b.maxX && b.minY ≤ y && y ≤ b.maxY
  | .polygon vs =>
    vs.any (fun v => b.minX ≤ v.1 && v.1 ≤ b.maxX && b.minY ≤ v.2 && v.2 ≤ b.maxY)

/-- `PostgresEDRProvider._get_bbox_filter`: an absent/empty bbox admits all
rows, otherwise the geometry must intersect the envelope. -/
def bboxPred (bbox : Option BBox) (g : Geom) : Bool :=
  match bbox with
  | none => true
  | some b => intersectsEnvelope g b

/-- `EDRProvider._get_parameter_filters`: an empty list admits all rows,
otherwise an OR of equality predicates against the parameter-id column. -/
def paramPred (sel : List String) (p : String) : Bool :=
  if sel.isEmpty then true else sel.any (fun v => p == v)

/-- A parsed temporal filter. -/
inductive TimeFilter
  | all
  | instant (t : Int)
  | between (lo hi : Option Int)
deriving DecidableEq, Repr

/-- Evaluate a temporal filter on the time column. -/
def evalTF : TimeFilter → Int → Bool
  | .all, _ => true
  | .instant t0, t => t == t0
  | .between lo hi, t =>
    (match lo with | none => true | some a => a ≤ t) &&
    (match hi with | none => true | some b => t ≤ b)

/-- Split a character list at a separator character (the embedding of
Python's `str.split(sep)`): the empty string yields `[""]`, and every
separator occurrence starts a new segment. -/
def splitCharAux (sep : Char) : List Char → List Char → List String
  | [], acc => [String.mk acc.reverse]
  | c :: cs, acc =>
    if c = sep then String.mk acc.reverse :: splitCharAux sep cs []
    else splitCharAux sep cs (c :: acc)

/-- `str.split(sep)` on a string. -/
def splitChar (sep : Char) (s : String) : List String :=
  splitCharAux sep s.toList []

/-- Digits-to-number conversion for the integer parser. -/
def digitsToNat : List Char → Option Nat
  | [] => none
  | l =>
    l.foldl
      (fun acc c =>
        match acc with
        | none => none
        | some n => if c.isDigit then some (n * 10 + (c.toNat - 48)) else none)
      (some 0)

/-- `int(s)`-style parsing of a decimal integer with optional sign. -/
def parseIntStr (s : String) : Option Int :=
  match s.toList with
  | '-' :: rest => (digitsToNat rest).map (fun n => -(n : Int))
  | l => (digitsToNat l).map (fun n => (n : Int))

/-- One end of an interval expression: `".."`/empty is open, otherwise an
instant. -/
def parseOpenEnd (x : String) : Option (Option Int) :=
  if x == ".." || x == "" then some none
  else match parseIntStr x with
       | some t => some (some t)
       | none => none

/-- Modelled from the spec: the temporal filter of §4.4 — implemented by the
external `pygeoapi` `GenericSQLProvider._get_datetime_filter`, which is not
under `src/`.  An absent expression admits all rows; a single instant becomes
an equality predicate; `start/end` becomes a range predicate where either end
may be the open-ended marker; a malformed expression fails with a
`ValidationError`. -/
def parseDtFilter : Option String → Except Err TimeFilter
  | none => .ok .all
  | some s =>
    match splitChar '/' s with
    | [x] =>
      match parseIntStr x with
      | some t => .ok (.instant t)
      | none => .error .validationError
    | [a, b] =>
      match parseOpenEnd a, parseOpenEnd b with
      | some lo, some hi => .ok (.between lo hi)
      | _, _ => .error .validationError
    | _ => .error .validationError

/-- The catalog produced by the `get_fields` query: one entry per distinct
parameter id, carrying display name and unit
(`session.query(...).distinct(self.pic).with_entities(self.pic, self.pnc,
self.puc)`). -/
def fieldsOf (store : List Row) : List (String × FieldMeta) :=
  (distinctOn (fun r => r.param) store).map
    (fun r => (r.param, ⟨"number", r.paramName, r.paramUnit⟩))

/-- Association-list lookup, the embedding of Python's `dict[key]` access. -/
def lookupA {β : Type} (k : String) : List (String × β) → Option β
  | [] => none
  | (k2, v) :: rest => if k2 == k then some v else lookupA k rest

/-- `out_params[param] = ...`: insert-or-replace into an insertion-ordered
dict. -/
def upsert (l : List (String × ParamDef)) (k : String) (v : ParamDef) :
    List (String × ParamDef) :=
  match l with
  | [] => [(k, v)]
  | (k2, v2) :: rest =>
    if k2 == k then (k, v) :: rest else (k2, v2) :: upsert rest k v

/-- The parameter definition `_get_parameters` builds for one catalog entry:
`name` and `unit.label.en` are both the title, `unit.symbol.value` the unit. -/
def mkParamDef (p : String) (c : FieldMeta) : ParamDef :=
  ⟨p, c.title, c.title, c.unit⟩

/-- The loop of `EDRProvider._get_parameters`: `self.fields[param]` raises
`KeyError` on a missing key. -/
def buildParams (fields : List (String × FieldMeta)) :
    List String → List (String × ParamDef) → Except Err (List (String × ParamDef))
  | [], acc => .ok acc
  | p :: ps, acc =>
    match lookupA p fields with
    | none => .error .keyError
    | some c => buildParams fields ps (upsert acc p (mkParamDef p c))

/-- `EDRProvider._get_parameters`: an empty candidate list falls back to all
catalog keys. -/
def get_parameters (fields : List (String × FieldMeta)) (parameters : List String) :
    Except Err (List (String × ParamDef)) :=
  buildParams fields
    (if parameters.isEmpty then fields.map (·.1) else parameters) []

/-- The filtered row set of `EDRProvider.locations`: bbox AND parameter AND
time predicates. -/
def activeRows (store : List Row) (sel : List String) (bbox : Option BBox)
    (tf : TimeFilter) : List Row :=
  store.filter
    (fun r => bboxPred bbox r.geom && paramPred sel r.param && evalTF tf r.time)

/-- The candidate parameter set: `results.distinct(self.pic).with_entities(self.pic)`. -/
def candidatesOf (rows : List Row) : List String :=
  (distinctOn (fun r => r.param) rows).map (·.param)

/-- Minimum of a time list (`func.min`). -/
def listMin : List Int → Option Int
  | [] => none
  | x :: xs => match listMin xs with | none => some x | some m => some (min x m)

/-- Maximum of a time list (`func.max`). -/
def listMax : List Int → Option Int
  | [] => none
  | x :: xs => match listMax xs with | none => some x | some m => some (max x m)

/-- `EDRProvider._sqlalchemy_to_feature`: re-scope the filtered rows to the
item's location, derive the time span and the distinct observed parameter
ids, and convert the geometry. -/
def toFeature (rows : List Row) (item : Row) : Feature :=
  { id := item.loc
    dtMin := listMin ((rows.filter (fun r => r.loc == item.loc)).map (·.time))
    dtMax := listMax ((rows.filter (fun r => r.loc == item.loc)).map (·.time))
    paramNames :=
      (distinctOn (fun r => r.param)
        (rows.filter (fun r => r.loc == item.loc))).map (·.param)
    geometry := some item.geom }

/-- The response loop of `EDRProvider.locations`: per distinct location,
append a feature and increment `numberReturned`. -/
def locFold (rows : List Row) :
    List Row → List Feature × Nat → List Feature × Nat
  | [], acc => acc
  | item :: rest, acc =>
    locFold rows rest (acc.1 ++ [toFeature rows item], acc.2 + 1)

/-- `EDRProvider.locations` without a `location_id`: build filters, compute
the active parameter set for the collection-level `parameters` block, then
one feature per distinct location up to `limit`. -/
def locationsCore (store : List Row) (sel : List String) (bbox : Option BBox)
    (dt : Option String) (lim : Nat) : Except Err FeatureCollection :=
  match parseDtFilter dt with
  | .error e => .error e
  | .ok tf =>
    match get_parameters (fieldsOf store)
        (candidatesOf (activeRows store sel bbox tf)) with
    | .error e => .error e
    | .ok ps =>
      let res := locFold (activeRows store sel bbox tf)
        ((distinctOn (fun r => r.loc) (activeRows store sel bbox tf)).take lim)
        ([], 0)
      .ok { features := res.1, parameters := ps.map (·.2), numberReturned := res.2 }

/-- The filtered row set of `EDRProvider.location`: location AND parameter
AND time predicates. -/
def covRows (store : List Row) (L : String) (sel : List String)
    (tf : TimeFilter) : List Row :=
  store.filter
    (fun r => r.loc == L && paramPred sel r.param && evalTF tf r.time)

/-- The time spine subquery: `query.distinct().order_by(self.tc.desc()).limit(limit)`. -/
def spineOf (rows : List Row) (lim : Nat) : List Int :=
  (sortDesc (distinctOn (fun t => t) (rows.map (·.time)))).take lim

/-- The outer join of the spine against the full table on
`(time_alias == self.tc, location_id == self.lc)`: for each spine time, its
matching table rows in order, or a single null-extended row. -/
def joinBlock (store : List Row) (L : String) (t : Int) :
    List (Int × Option Row) :=
  let ms := store.filter (fun r => r.time == t && r.loc == L)
  if ms.isEmpty then [(t, (none : Option Row))]
  else ms.map (fun r => (t, some r))

/-- The rows of the outer join, spine order first, match order within one
spine time. -/
def joinedOf (store : List Row) (L : String) (spine : List Int) :
    List (Int × Option Row) :=
  spine.flatMap (joinBlock store L)

/-- The conditional per-parameter projection
`case((and_(parameter == self.pic, location_id == self.lc), self.rc), else_=None)`;
a null-extended join row yields NULL. -/
def caseProj (L p : String) : Option Row → Option Int
  | some r => if r.param == p && r.loc == L then some r.value else none
  | none => none

/-- The initial `ranges[p]` NdArray: empty values, `shape == [0]`. -/
def initRanges (candidates : List String) : List (String × Range) :=
  candidates.map (fun p => (p, ⟨"float", ["t"], [0], []⟩))

/-- `shape[0] += 1`. -/
def bumpHead : List Nat → List Nat
  | [] => []
  | n :: r => (n + 1) :: r

/-- Append one projected value to a range and bump its first shape entry. -/
def rangeAppend (rg : Range) (v : Option Int) : Range :=
  { rg with values := rg.values ++ [v], shape := bumpHead rg.shape }

/-- The response loop of `EDRProvider.location`: per result row, append the
time to the t axis and one projected value to every candidate range. -/
def pivotFold (L : String) :
    List (Int × Option Row) → List Int × List (String × Range) →
    List Int × List (String × Range)
  | [], acc => acc
  | (t, ro) :: rest, acc =>
    pivotFold L rest
      (acc.1 ++ [t],
       acc.2.map (fun pr => (pr.1, rangeAppend pr.2 (caseProj L pr.1 ro))))

/-- `"Point"` / `"Polygon"` from `geom.geom_type`. -/
def geomType : Geom → String
  | .point _ _ => "Point"
  | .polygon _ => "Polygon"

/-- The x axis values: `[shapely.get_x(geom)]` for a point. -/
def axesX : Geom → List Int
  | .point x _ => [x]
  | .polygon _ => []

/-- The y axis values: `[shapely.get_y(geom)]` for a point. -/
def axesY : Geom → List Int
  | .point _ y => [y]
  | .polygon _ => []

/-- The composite axis payload for non-point geometries. -/
def compositeOf : Geom → Option Geom
  | .point _ _ => none
  | g => some g

/-- `EDRProvider.location`: fetch the geometry (`(geom,) = ....first()`
crashes with `TypeError` when no row matches), resolve the candidate
parameter set, build the time spine, pivot via the outer-joined conditional
projections, and add the `"Series"` suffix when the t axis has more than one
entry. -/
def location (store : List Row) (L : String) (sel : List String)
    (dt : Option String) (lim : Nat) : Except Err Coverage :=
  match parseDtFilter dt with
  | .error e => .error e
  | .ok tf =>
    match (store.filter (fun r => r.loc == L)).head? with
    | none => .error .typeError
    | some row0 =>
      match get_parameters (fieldsOf store)
          (candidatesOf (covRows store L sel tf)) with
      | .error e => .error e
      | .ok ps =>
        let res := pivotFold L
          ((joinedOf store L (spineOf (covRows store L sel tf) lim)).take lim)
          ([], initRanges (candidatesOf (covRows store L sel tf)))
        .ok { domainType :=
                if res.1.length > 1 then geomType row0.geom ++ "Series"
                else geomType row0.geom
              tAxis := res.1
              xAxis := axesX row0.geom
              yAxis := axesY row0.geom
              composite := compositeOf row0.geom
              parameters := ps
              ranges := res.2 }

/-- Python truthiness of the `location_id` argument (`if location_id:`):
present and non-empty. -/
def truthyId : Option String → Bool
  | some s => !(s == "")
  | none => false

/-- The dispatching `EDRProvider.locations` entry point: a truthy
`location_id` forwards to `location(location_id, select_properties,
datetime_, limit)` — the bbox argument is not forwarded. -/
def locations (store : List Row) (sel : List String) (bbox : Option BBox)
    (dt : Option String) (lim : Nat) (location_id : Option String) :
    Except Err LocResult :=
  if truthyId location_id then
    (location store (location_id.getD "") sel dt lim).map LocResult.cov
  else
    (locationsCore store sel bbox dt lim).map LocResult.fc

/-- The catalog state of one provider instance: the `_fields` mapping plus a
count of catalog queries issued to the store. -/
structure FieldsState where
  fields : List (String × FieldMeta)
  queries : Nat
deriving DecidableEq, Repr

/-- `EDRProvider.get_fields`: when `self._fields` is empty (and the
parameter-id role is configured, as it always is after `__init__`), issue the
distinct-parameter query and populate the mapping; otherwise return the
cached mapping. -/
def get_fields_stateful (store : List Row) (st : FieldsState) :
    List (String × FieldMeta) × FieldsState :=
  if st.fields.isEmpty then
    (fieldsOf store, ⟨fieldsOf store, st.queries + 1⟩)
  else (st.fields, st)

/-- A reflected Table Model: named columns plus named relationships to other
models. -/
structure ModelDef where
  columns : List String
  rels : List (String × String)
deriving DecidableEq, Repr

/-- The reflected schema: model name to model definition. -/
abbrev Schema : Type := List (String × ModelDef)

/-- An attribute found on a model: a column reference or a relationship. -/
inductive AttrVal
  | col (model name : String)
  | rel (model name target : String)
deriving DecidableEq, Repr

/-- `getattr(model, name)`: a column if present, else a relationship, else
absent (`AttributeError`). -/
def lookupAttr (s : Schema) (m attrName : String) : Option AttrVal :=
  match lookupA m s with
  | none => none
  | some d =>
    if attrName ∈ d.columns then some (.col m attrName)
    else
      match lookupA attrName d.rels with
      | some tgt => some (.rel m attrName tgt)
      | none => none

/-- Result of `pg_edr.lib.get_column_from_qualified_name`. -/
inductive PgResolved
  | attr (a : AttrVal)
  | model (m : String)
  | error
deriving DecidableEq, Repr

/-- `pg_edr.lib.get_column_from_qualified_name` on the segment list of the
path: the first `getattr` is wrapped in `try/except AttributeError` which
returns the *model* itself; a final segment returns whatever attribute was
found (column or relationship); following a column as a relationship
(`attr.mapper.class_`) raises `AttributeError`. -/
def gqPgSegs (s : Schema) (m : String) : List String → PgResolved
  | [] => .error
  | [a] =>
    match lookupAttr s m a with
    | some v => .attr v
    | none => .model m
  | a :: rest =>
    match lookupAttr s m a with
    | none => .model m
    | some (.col _ _) => .error
    | some (.rel _ _ tgt) => gqPgSegs s tgt rest

/-- `pg_edr.lib.get_column_from_qualified_name`: split the path at dots and
resolve recursively. -/
def gqPg (s : Schema) (m : String) (path : String) : PgResolved :=
  gqPgSegs s m (splitChar '.' path)

/-- Result of `pygeoapi_sql_edr.lib.get_column_from_qualified_name`. -/
inductive SqlResolved
  | attr (a : AttrVal)
  | error
deriving DecidableEq, Repr

/-- `pygeoapi_sql_edr.lib.get_column_from_qualified_name`: exactly two
segments look up a relationship then a column on the related model
(an absent attribute raises `AttributeError`, and `table.mapper.class_` on a
column attribute raises `AttributeError`); any other segment count is a plain
`getattr` with the full dotted name. -/
def gqSql (s : Schema) (m : String) (path : String) : SqlResolved :=
  match splitChar '.' path with
  | [t, c] =>
    match lookupAttr s m t with
    | none => .error
    | some (.col _ _) => .error
    | some (.rel _ _ tgt) =>
      match lookupAttr s tgt c with
      | none => .error
      | some col => .attr col
  | _ =>
    match lookupAttr s m path with
    | none => .error
    | some v => .attr v

/-- `shape[0] + k`. -/
def addHead (k : Nat) : List Nat → List Nat
  | [] => []
  | n :: r => (n + k) :: r

/-- The number of distinct locations matching the active filters
(`results.distinct(self.lc)` before the limit). -/
def totalDistinctLocations (store : List Row) (sel : List String)
    (bbox : Option BBox) (tf : TimeFilter) : Nat :=
  (distinctOn (fun r => r.loc) (activeRows store sel bbox tf)).length

/-! ## Concrete stores and responses used by witnesses and counterexamples -/

/-- Demo observation: location `L1`, time 2, parameter `a`. -/
def demoRowA : Row := ⟨"L1", 2, "a", "A", "u", 10, .point 3 4⟩

/-- Demo observation: location `L1`, time 1, parameter `b`. -/
def demoRowB : Row := ⟨"L1", 1, "b", "B", "u", 20, .point 3 4⟩

/-- A two-observation store: one location, two times, two parameters, each
parameter observed at only one of the two times. -/
def demoStore : List Row := [demoRowA, demoRowB]

/-- The coverage `location demoStore "L1" [] none 100` evaluates to. -/
def demoCov : Coverage :=
  { domainType := "PointSeries"
    tAxis := [2, 1]
    xAxis := [3]
    yAxis := [4]
    composite := none
    parameters := [("a", ⟨"a", "A", "A", "u"⟩), ("b", ⟨"b", "B", "B", "u"⟩)]
    ranges := [("a", ⟨"float", ["t"], [2], [some 10, none]⟩),
               ("b", ⟨"float", ["t"], [2], [none, some 20]⟩)] }

/-- The range for parameter `a` in `demoCov`. -/
def demoRangeA : Range := ⟨"float", ["t"], [2], [some 10, none]⟩

/-- The feature collection `locationsCore demoStore [] none none 5`
evaluates to. -/
def demoFC : FeatureCollection :=
  { features := [{ id := "L1", dtMin := some 1, dtMax := some 2,
                   paramNames := ["a", "b"], geometry := some (.point 3 4) }]
    parameters := [⟨"a", "A", "A", "u"⟩, ⟨"b", "B", "B", "u"⟩]
    numberReturned := 1 }

/-- Two observations at the same location and the same time for two
different parameters. -/
def dupRowA : Row := ⟨"L1", 5, "a", "A", "u", 1, .point 0 0⟩

/-- Second observation at the same `(location, time)` pair. -/
def dupRowB : Row := ⟨"L1", 5, "b", "B", "u", 2, .point 0 0⟩

/-- A store in which location `L1` has two rows at time 5. -/
def dupStore : List Row := [dupRowA, dupRowB]

/-- Location `L1` observing only parameter `a`. -/
def unionRowA : Row := ⟨"L1", 1, "a", "A", "u", 1, .point 0 0⟩

/-- Location `L2` observing only parameter `b`. -/
def unionRowB : Row := ⟨"L2", 1, "b", "B", "u", 2, .point 0 0⟩

/-- A store with two locations observing disjoint parameters. -/
def unionStore : List Row := [unionRowA, unionRowB]

/-- The feature collection `locationsCore unionStore ["a", "b"] none none 5`
evaluates to. -/
def unionFCU : FeatureCollection :=
  { features := [{ id := "L1", dtMin := some 1, dtMax := some 1,
                   paramNames := ["a"], geometry := some (.point 0 0) },
                 { id := "L2", dtMin := some 1, dtMax := some 1,
                   paramNames := ["b"], geometry := some (.point 0 0) }]
    parameters := [⟨"a", "A", "A", "u"⟩, ⟨"b", "B", "B", "u"⟩]
    numberReturned := 2 }

/-- The feature collection `locationsCore unionStore ["a"] none none 5`
evaluates to. -/
def unionFCA : FeatureCollection :=
  { features := [{ id := "L1", dtMin := some 1, dtMax := some 1,
                   paramNames := ["a"], geometry := some (.point 0 0) }]
    parameters := [⟨"a", "A", "A", "u"⟩]
    numberReturned := 1 }

/-- The feature collection `locationsCore unionStore ["b"] none none 5`
evaluates to. -/
def unionFCB : FeatureCollection :=
  { features := [{ id := "L2", dtMin := some 1, dtMax := some 1,
                   paramNames := ["b"], geometry := some (.point 0 0) }]
    parameters := [⟨"b", "B", "B", "u"⟩]
    numberReturned := 1 }

/-- A demo reflected schema: model `t` with column `c1` and relationship
`r1` to model `t2`, which has column `c2`. -/
def demoSchema : Schema :=
  [("t", ⟨["c1"], [("r1", "t2")]⟩), ("t2", ⟨["c2"], []⟩)]

/-- The feature collection `locationsCore unionStore [] none none 1`
evaluates to. -/
def unionFC1 : FeatureCollection :=
  { features := [{ id := "L1", dtMin := some 1, dtMax := some 1,
                   paramNames := ["a"], geometry := some (.point 0 0) }]
    parameters := [⟨"a", "A", "A", "u"⟩, ⟨"b", "B", "B", "u"⟩]
    numberReturned := 1 }

/-- The feature collection `locationsCore demoStore ["zzz"] none none 5`
evaluates to: no row matches, yet `parameters` lists the full catalog. -/
def demoFCZ : FeatureCollection :=
  { features := []
    parameters := [⟨"a", "A", "A", "u"⟩, ⟨"b", "B", "B", "u"⟩]
    numberReturned := 0 }

/-- The coverage `location demoStore "L1" ["zzz"] none 5` evaluates to: the
candidate set is empty, yet `parameters` lists the full catalog. -/
def demoCovZ : Coverage :=
  { domainType := "Point"
    tAxis := []
    xAxis := [3]
    yAxis := [4]
    composite := none
    parameters := [("a", ⟨"a", "A", "A", "u"⟩), ("b", ⟨"b", "B", "B", "u"⟩)]
    ranges := [] }

/-! ## Theorems -/

theorem mem_of_mem_distinctOnAux {α β : Type} [DecidableEq β] {k : α → β}
    {seen : List β} {l : List α} {x : α} (h : x ∈ distinctOnAux k seen l) :
    x ∈ l := by
  induction l generalizing seen with
  | nil => simp [distinctOnAux] at h
  | cons a l ih =>
    simp only [distinctOnAux] at h
    split at h
    · exact List.mem_cons_of_mem _ (ih h)
    · rcases List.mem_cons.1 h with h | h
      · simp [h]
      · exact List.mem_cons_of_mem _ (ih h)

theorem mem_of_mem_distinctOn {α β : Type} [DecidableEq β] {k : α → β}
    {l : List α} {x : α} (h : x ∈ distinctOn k l) : x ∈ l :=
  mem_of_mem_distinctOnAux h

theorem mem_map_distinctOnAux_iff {α β : Type} [DecidableEq β] (k : α → β)
    (seen : List β) (l : List α) (b : β) :
    b ∈ (distinctOnAux k seen l).map k ↔ b ∈ l.map k ∧ b ∉ seen := by
  induction l generalizing seen with
  | nil => simp [distinctOnAux]
  | cons a l ih =>
    simp only [distinctOnAux]
    split
    · rename_i hmem
      rw [ih]
      simp only [List.map_cons, List.mem_cons]
      constructor
      · rintro ⟨h1, h2⟩; exact ⟨Or.inr h1, h2⟩
      · rintro ⟨h1 | h1, h2⟩
        · exact absurd (h1 ▸ hmem) h2
        · exact ⟨h1, h2⟩
    · rename_i hmem
      simp only [List.map_cons, List.mem_cons, ih]
      constructor
      · rintro (h | ⟨h1, h2⟩)
        · exact ⟨Or.inl h, h ▸ hmem⟩
        · refine ⟨Or.inr h1, fun hb => h2 (by simp [hb])⟩
      · rintro ⟨h1 | h1, h2⟩
        · exact Or.inl h1
        · by_cases hb : b = k a
          · exact Or.inl hb
          · exact Or.inr ⟨h1, by simp [h2, hb]⟩

theorem mem_map_distinctOn_iff {α β : Type} [DecidableEq β] (k : α → β)
    (l : List α) (b : β) :
    b ∈ (distinctOn k l).map k ↔ b ∈ l.map k := by
  rw [distinctOn, mem_map_distinctOnAux_iff]
  simp

theorem nodup_map_distinctOnAux {α β : Type} [DecidableEq β] (k : α → β)
    (seen : List β) (l : List α) :
    ((distinctOnAux k seen l).map k).Nodup := by
  induction l generalizing seen with
  | nil => simp [distinctOnAux]
  | cons a l ih =>
    simp only [distinctOnAux]
    split
    · exact ih seen
    · rename_i hmem
      simp only [List.map_cons, List.nodup_cons]
      refine ⟨fun hin => ?_, ih _⟩
      rw [mem_map_distinctOnAux_iff] at hin
      exact hin.2 (by simp)

theorem nodup_map_distinctOn {α β : Type} [DecidableEq β] (k : α → β)
    (l : List α) : ((distinctOn k l).map k).Nodup :=
  nodup_map_distinctOnAux k [] l

theorem distinctOn_nil_iff {α β : Type} [DecidableEq β] (k : α → β)
    (l : List α) : distinctOn k l = [] ↔ l = [] := by
  cases l with
  | nil => simp [distinctOn, distinctOnAux]
  | cons a l => simp [distinctOn, distinctOnAux]

theorem mem_insertDesc {t a : Int} {l : List Int} :
    a ∈ insertDesc t l ↔ a = t ∨ a ∈ l := by
  induction l with
  | nil => simp [insertDesc]
  | cons x xs ih =>
    simp only [insertDesc]
    split
    · simp only [List.mem_cons, ih]; tauto
    · simp only [List.mem_cons]

theorem mem_sortDesc {a : Int} {l : List Int} :
    a ∈ sortDesc l ↔ a ∈ l := by
  induction l with
  | nil => simp [sortDesc]
  | cons x xs ih =>
    simp only [sortDesc, List.foldr_cons] at *
    rw [mem_insertDesc, ih, List.mem_cons]

theorem pairwise_ge_insertDesc {t : Int} {l : List Int}
    (h : l.Pairwise (· ≥ ·)) : (insertDesc t l).Pairwise (· ≥ ·) := by
  induction l with
  | nil => simp [insertDesc]
  | cons x xs ih =>
    simp only [insertDesc]
    rcases List.pairwise_cons.1 h with ⟨hx, hxs⟩
    split
    · rename_i hle
      refine List.pairwise_cons.2 ⟨fun b hb => ?_, ih hxs⟩
      rcases mem_insertDesc.1 hb with rfl | hb
      · exact hle
      · exact hx b hb
    · rename_i hgt
      push_neg at hgt
      refine List.pairwise_cons.2 ⟨fun b hb => ?_, h⟩
      rcases List.mem_cons.1 hb with rfl | hb
      · exact le_of_lt hgt
      · exact le_trans (hx b hb) (le_of_lt hgt)

theorem pairwise_ge_sortDesc (l : List Int) :
    (sortDesc l).Pairwise (· ≥ ·) := by
  induction l with
  | nil => simp [sortDesc]
  | cons x xs ih => exact pairwise_ge_insertDesc ih

theorem nodup_insertDesc {t : Int} {l : List Int} (ht : t ∉ l)
    (h : l.Nodup) : (insertDesc t l).Nodup := by
  induction l with
  | nil => simp [insertDesc]
  | cons x xs ih =>
    simp only [insertDesc]
    rcases List.nodup_cons.1 h with ⟨hx, hxs⟩
    split
    · refine List.nodup_cons.2 ⟨fun hb => ?_, ih (fun h2 => ht (by simp [h2])) hxs⟩
      rcases mem_insertDesc.1 hb with rfl | hb
      · exact ht (by simp)
      · exact hx hb
    · refine List.nodup_cons.2 ⟨fun hb => ht ?_, h⟩
      exact hb

theorem nodup_sortDesc {l : List Int} (h : l.Nodup) :
    (sortDesc l).Nodup := by
  induction l with
  | nil => simp [sortDesc]
  | cons x xs ih =>
    rcases List.nodup_cons.1 h with ⟨hx, hxs⟩
    exact nodup_insertDesc (fun hm => hx (mem_sortDesc.1 hm)) (ih hxs)

theorem pairwise_gt_sortDesc {l : List Int} (h : l.Nodup) :
    (sortDesc l).Pairwise (· > ·) := by
  have h1 := pairwise_ge_sortDesc l
  have h2 := nodup_sortDesc h
  have := List.Pairwise.and h1 h2
  exact this.imp (fun {a b} hab => lt_of_le_of_ne hab.1.le (Ne.symm hab.2))

theorem addHead_zero (s : List Nat) : addHead 0 s = s := by
  cases s <;> simp [addHead]

theorem addHead_bumpHead (k : Nat) (s : List Nat) :
    addHead k (bumpHead s) = addHead (k + 1) s := by
  cases s with
  | nil => simp [addHead, bumpHead]
  | cons n r => simp [addHead, bumpHead]; omega

theorem locFold_eq (rows : List Row) (items : List Row)
    (acc : List Feature × Nat) :
    locFold rows items acc =
      (acc.1 ++ items.map (toFeature rows), acc.2 + items.length) := by
  induction items generalizing acc with
  | nil => simp [locFold]
  | cons a rest ih =>
    simp only [locFold, ih, List.map_cons, List.length_cons]
    refine Prod.ext ?_ ?_
    · simp [List.append_assoc]
    · simp; omega

theorem pivotFold_eq (L : String) (rows : List (Int × Option Row))
    (acc : List Int × List (String × Range)) :
    pivotFold L rows acc =
      (acc.1 ++ rows.map (fun tr => tr.1),
       acc.2.map (fun pr => (pr.1,
         { pr.2 with
             values := pr.2.values ++ rows.map (fun tr => caseProj L pr.1 tr.2)
             shape := addHead rows.length pr.2.shape }))) := by
  induction rows generalizing acc with
  | nil =>
    simp only [pivotFold, List.map_nil, List.append_nil, List.length_nil,
      addHead_zero]
    refine Prod.ext (by simp) ?_
    simp only []
    have : (fun (pr : String × Range) =>
        (pr.1, { pr.2 with values := pr.2.values, shape := pr.2.shape })) =
        fun pr => pr := by
      funext pr
      simp
    rw [this, List.map_id']
  | cons a rest ih =>
    obtain ⟨t, ro⟩ := a
    simp only [pivotFold, ih, List.map_cons, List.length_cons]
    refine Prod.ext ?_ ?_
    · simp [List.append_assoc]
    · simp only [List.map_map]
      apply List.map_congr_left
      intro pr _
      simp only [Function.comp_apply, rangeAppend, addHead_bumpHead]
      refine congrArg _ ?_
      refine congrArg _ ?_
      simp [List.append_assoc]

/-! ## Extraction lemmas for `locationsCore` and `location` -/

theorem locationsCore_ok {store : List Row} {sel : List String}
    {bbox : Option BBox} {dt : Option String} {lim : Nat} {tf : TimeFilter}
    {resp : FeatureCollection}
    (hdt : parseDtFilter dt = .ok tf)
    (h : locationsCore store sel bbox dt lim = .ok resp) :
    resp.features =
      ((distinctOn (fun r => r.loc) (activeRows store sel bbox tf)).take lim).map
        (toFeature (activeRows store sel bbox tf)) ∧
    resp.numberReturned =
      ((distinctOn (fun r => r.loc) (activeRows store sel bbox tf)).take lim).length ∧
    ∃ ps, get_parameters (fieldsOf store)
        (candidatesOf (activeRows store sel bbox tf)) = .ok ps ∧
      resp.parameters = ps.map (fun pr => pr.2) := by
  unfold locationsCore at h
  rw [hdt] at h
  dsimp only at h
  cases hps : get_parameters (fieldsOf store)
      (candidatesOf (activeRows store sel bbox tf)) with
  | error e => rw [hps] at h; cases h
  | ok ps =>
    rw [hps] at h
    simp only [Except.ok.injEq] at h
    subst h
    rw [locFold_eq]
    refine ⟨by simp, by simp, ps, rfl, rfl⟩

theorem location_ok {store : List Row} {L : String} {sel : List String}
    {dt : Option String} {lim : Nat} {tf : TimeFilter} {cov : Coverage}
    (hdt : parseDtFilter dt = .ok tf)
    (h : location store L sel dt lim = .ok cov) :
    cov.tAxis =
      ((joinedOf store L (spineOf (covRows store L sel tf) lim)).take lim).map
        (fun tr => tr.1) ∧
    (∀ p rg, (p, rg) ∈ cov.ranges →
      p ∈ candidatesOf (covRows store L sel tf) ∧
      rg.values =
        ((joinedOf store L (spineOf (covRows store L sel tf) lim)).take lim).map
          (fun tr => caseProj L p tr.2) ∧
      rg.shape =
        [((joinedOf store L (spineOf (covRows store L sel tf) lim)).take lim).length]) ∧
    ∃ ps, get_parameters (fieldsOf store)
        (candidatesOf (covRows store L sel tf)) = .ok ps ∧ cov.parameters = ps := by
  unfold location at h
  rw [hdt] at h
  dsimp only at h
  cases hrow : (store.filter (fun r => r.loc == L)).head? with
  | none => rw [hrow] at h; cases h
  | some row0 =>
    rw [hrow] at h
    dsimp only at h
    cases hps : get_parameters (fieldsOf store)
        (candidatesOf (covRows store L sel tf)) with
    | error e => rw [hps] at h; cases h
    | ok ps =>
      rw [hps] at h
      simp only [Except.ok.injEq] at h
      subst h
      rw [pivotFold_eq]
      refine ⟨by simp, ?_, ps, rfl, rfl⟩
      intro p rg hmem
      rw [initRanges, List.map_map] at hmem
      obtain ⟨q, hq, heq⟩ := List.mem_map.1 hmem
      simp only [Function.comp_apply, Prod.mk.injEq] at heq
      obtain ⟨rfl, hrg⟩ := heq
      refine ⟨hq, ?_, ?_⟩
      · rw [← hrg]
        simp
      · rw [← hrg]
        simp [addHead]

/-! ## Lemmas about the `parameters` block -/

theorem lookupA_isSome_of_mem {β : Type} {l : List (String × β)} {k : String}
    (h : k ∈ l.map (fun pr => pr.1)) : (lookupA k l).isSome := by
  induction l with
  | nil => simp at h
  | cons a l ih =>
    simp only [lookupA]
    split
    · simp
    · rename_i hne
      apply ih
      simp only [List.map_cons, List.mem_cons] at h
      rcases h with h1 | h1
      · exact absurd (by simp [h1]) hne
      · exact h1

theorem upsert_of_not_mem {l : List (String × ParamDef)} {k : String}
    {v : ParamDef} (h : k ∉ l.map (fun pr => pr.1)) :
    upsert l k v = l ++ [(k, v)] := by
  induction l with
  | nil => simp [upsert]
  | cons a l ih =>
    obtain ⟨k2, v2⟩ := a
    simp only [upsert]
    split
    · rename_i heq
      rw [beq_iff_eq] at heq
      exact absurd (by simp [heq]) h
    · rw [ih (fun hm => h (by simp [hm]))]
      simp

theorem buildParams_ok {fields : List (String × FieldMeta)} {ps : List String}
    (acc : List (String × ParamDef))
    (h : ∀ p ∈ ps, (lookupA p fields).isSome) :
    ∃ out, buildParams fields ps acc = .ok out := by
  induction ps generalizing acc with
  | nil => exact ⟨acc, rfl⟩
  | cons p ps ih =>
    obtain ⟨c, hc⟩ := Option.isSome_iff_exists.1 (h p (by simp))
    simp only [buildParams, hc]
    exact ih _ (fun q hq => h q (by simp [hq]))

theorem buildParams_keys {fields : List (String × FieldMeta)} {ps : List String}
    {acc : List (String × ParamDef)} {out : List (String × ParamDef)}
    (hnd : ps.Nodup)
    (hdisj : ∀ p ∈ ps, p ∉ acc.map (fun pr => pr.1))
    (h : buildParams fields ps acc = .ok out) :
    out.map (fun pr => pr.1) = acc.map (fun pr => pr.1) ++ ps := by
  induction ps generalizing acc with
  | nil =>
    simp only [buildParams, Except.ok.injEq] at h
    subst h
    simp
  | cons p ps ih =>
    simp only [buildParams] at h
    cases hc : lookupA p fields with
    | none => rw [hc] at h; cases h
    | some c =>
      rw [hc] at h
      rcases List.nodup_cons.1 hnd with ⟨hp, hnd2⟩
      have hupd : upsert acc p (mkParamDef p c) = acc ++ [(p, mkParamDef p c)] :=
        upsert_of_not_mem (hdisj p (by simp))
      have hdisj2 : ∀ q ∈ ps,
          q ∉ (upsert acc p (mkParamDef p c)).map (fun pr => pr.1) := by
        intro q hq
        rw [hupd]
        simp only [List.map_append, List.mem_append, List.map_cons]
        rintro (hin | hin)
        · exact hdisj q (by simp [hq]) hin
        · simp only [List.map_nil, List.mem_cons, List.not_mem_nil, or_false] at hin
          exact hp (hin ▸ hq)
      have := ih hnd2 hdisj2 h
      rw [hupd] at this
      simpa [List.append_assoc] using this

theorem get_parameters_ok {fields : List (String × FieldMeta)}
    {parameters : List String}
    (h : ∀ p ∈ parameters, p ∈ fields.map (fun pr => pr.1)) :
    ∃ out, get_parameters fields parameters = .ok out := by
  unfold get_parameters
  split
  · exact buildParams_ok [] (fun p hp => lookupA_isSome_of_mem hp)
  · exact buildParams_ok [] (fun p hp => lookupA_isSome_of_mem (h p hp))

theorem get_parameters_nil_keys {fields : List (String × FieldMeta)}
    {out : List (String × ParamDef)}
    (hnd : (fields.map (fun pr => pr.1)).Nodup)
    (h : get_parameters fields [] = .ok out) :
    out.map (fun pr => pr.1) = fields.map (fun pr => pr.1) := by
  unfold get_parameters at h
  simp only [List.isEmpty_nil, if_true] at h
  have := buildParams_keys hnd (by simp) h
  simpa using this

/-- The catalog keys are exactly the distinct parameter ids of the store. -/
theorem fieldsOf_keys (store : List Row) :
    (fieldsOf store).map (fun pr => pr.1) =
      (distinctOn (fun r => r.param) store).map (fun r => r.param) := by
  simp [fieldsOf, List.map_map]

theorem fieldsOf_keys_nodup (store : List Row) :
    ((fieldsOf store).map (fun pr => pr.1)).Nodup := by
  rw [fieldsOf_keys]
  exact nodup_map_distinctOn _ _

/-- Every parameter observed in the store is a catalog key. -/
theorem param_mem_fieldsOf {store : List Row} {r : Row} (h : r ∈ store) :
    r.param ∈ (fieldsOf store).map (fun pr => pr.1) := by
  rw [fieldsOf_keys, mem_map_distinctOn_iff]
  exact List.mem_map_of_mem _ h

/-! ## Membership lemmas for the filtered row sets -/

theorem mem_activeRows {store : List Row} {sel : List String}
    {bbox : Option BBox} {tf : TimeFilter} {r : Row} :
    r ∈ activeRows store sel bbox tf ↔
      r ∈ store ∧ bboxPred bbox r.geom = true ∧ paramPred sel r.param = true ∧
        evalTF tf r.time = true := by
  simp [activeRows, List.mem_filter, Bool.and_eq_true, and_assoc]

theorem mem_covRows {store : List Row} {L : String} {sel : List String}
    {tf : TimeFilter} {r : Row} :
    r ∈ covRows store L sel tf ↔
      r ∈ store ∧ r.loc = L ∧ paramPred sel r.param = true ∧
        evalTF tf r.time = true := by
  simp [covRows, List.mem_filter, Bool.and_eq_true, and_assoc]

/-- Candidates are parameters of filtered rows. -/
theorem mem_candidatesOf {rows : List Row} {p : String} :
    p ∈ candidatesOf rows ↔ ∃ r ∈ rows, r.param = p := by
  unfold candidatesOf
  rw [mem_map_distinctOn_iff]
  simp [eq_comm]

/-- A selected-parameters filter with a non-empty list only admits selected
parameters. -/
theorem paramPred_mem {sel : List String} {p : String} (hne : sel ≠ [])
    (h : paramPred sel p = true) : p ∈ sel := by
  unfold paramPred at h
  rw [if_neg (by simpa using hne)] at h
  obtain ⟨v, hv, heq⟩ := List.any_eq_true.1 h
  rw [beq_iff_eq] at heq
  exact heq ▸ hv

/-- The OR filter for a concatenation of non-empty selections is the
disjunction of the two filters. -/
theorem paramPred_append {A B : List String} (hA : A ≠ []) (hB : B ≠ [])
    (p : String) :
    paramPred (A ++ B) p = (paramPred A p || paramPred B p) := by
  unfold paramPred
  rw [if_neg (by simp [hA]), if_neg (by simpa using hA),
    if_neg (by simpa using hB), List.any_append]

/-! ## Lemmas about the outer join and the time spine -/

theorem fst_of_mem_joinBlock {store : List Row} {L : String} {t : Int}
    {tr : Int × Option Row} (h : tr ∈ joinBlock store L t) : tr.1 = t := by
  unfold joinBlock at h
  dsimp only at h
  split at h
  · rcases List.mem_singleton.1 h with rfl
    rfl
  · obtain ⟨r, _, rfl⟩ := List.mem_map.1 h
    rfl

theorem mem_joinedOf_snd {store : List Row} {L : String} {spine : List Int}
    {tr : Int × Option Row} (h : tr ∈ joinedOf store L spine) :
    tr.2 = none ∨ ∃ r, tr.2 = some r ∧ r ∈ store ∧ r.time = tr.1 ∧ r.loc = L := by
  obtain ⟨t, _, hblock⟩ := List.mem_flatMap.1 h
  unfold joinBlock at hblock
  dsimp only at hblock
  split at hblock
  · left
    rcases List.mem_singleton.1 hblock with rfl
    rfl
  · obtain ⟨r, hr, rfl⟩ := List.mem_map.1 hblock
    right
    refine ⟨r, rfl, ?_⟩
    obtain ⟨hstore, hcond⟩ := List.mem_filter.1 hr
    simp only [Bool.and_eq_true, beq_iff_eq] at hcond
    exact ⟨hstore, hcond.1, hcond.2⟩

theorem pairwise_ge_of_all_eq {l : List Int} {t : Int}
    (h : ∀ x ∈ l, x = t) : l.Pairwise (· ≥ ·) := by
  induction l with
  | nil => simp
  | cons a l ih =>
    refine List.pairwise_cons.2
      ⟨fun b hb => ?_, ih (fun x hx => h x (by simp [hx]))⟩
    rw [h a (by simp), h b (by simp [hb])]

theorem pairwise_ge_joinedOf (store : List Row) (L : String) {spine : List Int}
    (h : spine.Pairwise (· > ·)) :
    ((joinedOf store L spine).map (fun tr => tr.1)).Pairwise (· ≥ ·) := by
  induction spine with
  | nil => simp [joinedOf]
  | cons t rest ih =>
    rcases List.pairwise_cons.1 h with ⟨ht, hrest⟩
    unfold joinedOf at *
    rw [List.flatMap_cons, List.map_append, List.pairwise_append]
    refine ⟨?_, ih hrest, ?_⟩
    · refine pairwise_ge_of_all_eq (t := t) (fun x hx => ?_)
      obtain ⟨tr, htr, rfl⟩ := List.mem_map.1 hx
      exact fst_of_mem_joinBlock htr
    · intro a ha b hb
      obtain ⟨tra, htra, rfl⟩ := List.mem_map.1 ha
      rw [fst_of_mem_joinBlock htra]
      obtain ⟨trb, htrb, rfl⟩ := List.mem_map.1 hb
      obtain ⟨u, hu, hub⟩ := List.mem_flatMap.1 htrb
      rw [fst_of_mem_joinBlock hub]
      exact le_of_lt (ht u hu)

theorem spineOf_pairwise_gt (rows : List Row) (lim : Nat) :
    (spineOf rows lim).Pairwise (· > ·) := by
  unfold spineOf
  refine List.Pairwise.sublist (List.take_sublist _ _) ?_
  refine pairwise_gt_sortDesc ?_
  have := nodup_map_distinctOn (fun t : Int => t) (rows.map (fun r => r.time))
  simpa [List.map_id'] using this

/-! ## Claim C1 -/

/-- C1: for every result of `location(location_id, select_properties,
datetime_, limit)` and every parameter key `p` in the returned coverage's
ranges, `ranges[p].values` has the same length as `domain.axes.t.values`,
`ranges[p].shape[0]` equals that length, and times at which `p` has no
observation appear as explicit nulls in `ranges[p].values` rather than being
omitted (position-wise: wherever the t axis holds a time with no stored
observation of `p` at this location, the aligned value is `none`). -/
theorem c1_ranges_aligned_with_time_axis
    {store : List Row} {L : String} {sel : List String} {dt : Option String}
    {lim : Nat} {cov : Coverage} {p : String} {rg : Range}
    (h : location store L sel dt lim = .ok cov)
    (hmem : (p, rg) ∈ cov.ranges) :
    rg.values.length = cov.tAxis.length ∧
    rg.shape = [cov.tAxis.length] ∧
    ∀ pr ∈ cov.tAxis.zip rg.values,
      (∀ r ∈ store, r.loc = L → r.time = pr.1 → r.param ≠ p) → pr.2 = none := by
  cases hdt : parseDtFilter dt with
  | error e =>
    unfold location at h
    rw [hdt] at h
    cases h
  | ok tf =>
    obtain ⟨ht, hrg, -⟩ := location_ok hdt h
    obtain ⟨hp, hvals, hshape⟩ := hrg p rg hmem
    refine ⟨?_, ?_, ?_⟩
    · rw [hvals, ht, List.length_map, List.length_map]
    · rw [hshape, ht, List.length_map]
    · intro pr hpr hnone
      rw [ht, hvals, List.zip_map'] at hpr
      obtain ⟨tr, htr, rfl⟩ := List.mem_map.1 hpr
      have htr2 := List.take_subset _ _ htr
      rcases mem_joinedOf_snd htr2 with hn | ⟨r, hsome, hrstore, hrtime, hrloc⟩
      · simp [caseProj, hn]
      · have hne : r.param ≠ p := hnone r hrstore hrloc hrtime
        rw [hsome]
        simp [caseProj, hne]

/-- C1 witness: in `demoStore`, parameter `a` is observed at time 2 but not
at time 1, and its range is aligned to the two-entry time axis with an
explicit null. -/
theorem c1_witness :
    demoRangeA.values.length = demoCov.tAxis.length ∧
    demoRangeA.shape = [demoCov.tAxis.length] ∧
    ∀ pr ∈ demoCov.tAxis.zip demoRangeA.values,
      (∀ r ∈ demoStore, r.loc = "L1" → r.time = pr.1 → r.param ≠ "a") →
        pr.2 = none :=
  @c1_ranges_aligned_with_time_axis demoStore "L1" [] none 100 demoCov "a"
    demoRangeA (by decide) (by decide)

/-! ## Claim C2 -/

/-- C2 counterexample: with two rows at the same location and the same time
(for two different parameters), `domain.axes.t.values` is `[5, 5]`, which
contains a duplicate time value — the claim that the returned t axis never
contains duplicates is false. -/
theorem c2_counterexample_duplicate_times :
    (location dupStore "L1" [] none 100).map (fun c => c.tAxis) = .ok [5, 5] ∧
    ¬ ([5, 5] : List Int).Nodup := by decide

/-- C2 (amended): for every call to `location(location_id,
select_properties, datetime_, limit)`, the returned `domain.axes.t.values`
is ordered non-strictly descending and has at most `limit` entries; it can
repeat a time (consecutively) when the location has several rows at that
time, so it is duplicate-free only in stores with at most one row per
`(location, time)` pair. -/
theorem c2_amended_taxis_descending_bounded
    {store : List Row} {L : String} {sel : List String} {dt : Option String}
    {lim : Nat} {cov : Coverage}
    (h : location store L sel dt lim = .ok cov) :
    cov.tAxis.Pairwise (· ≥ ·) ∧ cov.tAxis.length ≤ lim := by
  cases hdt : parseDtFilter dt with
  | error e =>
    unfold location at h
    rw [hdt] at h
    cases h
  | ok tf =>
    obtain ⟨ht, -, -⟩ := location_ok hdt h
    constructor
    · rw [ht, List.map_take]
      exact List.Pairwise.sublist (List.take_sublist _ _)
        (pairwise_ge_joinedOf store L
          (spineOf_pairwise_gt (covRows store L sel tf) lim))
    · rw [ht, List.length_map, List.length_take]
      exact min_le_left _ _

/-- C2 witness: on `demoStore` the returned t axis `[2, 1]` is descending
and within the limit. -/
theorem c2_witness :
    demoCov.tAxis.Pairwise (· ≥ ·) ∧ demoCov.tAxis.length ≤ 100 :=
  @c2_amended_taxis_descending_bounded demoStore "L1" [] none 100 demoCov
    (by decide)

/-! ## Claim C3 -/

/-- C3 counterexample: on `demoSchema`, resolving the path `"missing"` (a
final segment that is not a column of the current model) with the `pg_edr`
resolver does not raise: it silently returns the current Table Model itself
— a non-column value — because the `AttributeError` is caught and `model` is
returned. -/
theorem c3_counterexample_resolver_returns_model :
    gqPg demoSchema "t" "missing" = .model "t" ∧
    PgResolved.model "t" ≠ PgResolved.error := by decide

/-- C3 (amended): when a path segment is absent on the current model, the
`pg_edr` resolver silently returns the current Table Model (both in the
no-dot case and in the dotted case), never an error; the `pygeoapi_sql_edr`
resolver instead raises `AttributeError` in the no-dot case when the final
segment is not an attribute of the model. -/
theorem c3_amended_resolver_behaviour
    (s : Schema) (m : String) (a : String) (rest : List String)
    (hmiss : lookupAttr s m a = none) :
    gqPgSegs s m (a :: rest) = .model m ∧
    (∀ path, splitChar '.' path = [path] → lookupAttr s m path = none →
      gqSql s m path = .error) := by
  constructor
  · cases rest with
    | nil => simp [gqPgSegs, hmiss]
    | cons b bs => simp [gqPgSegs, hmiss]
  · intro path hsplit hnone
    unfold gqSql
    rw [hsplit, hnone]

/-- C3 witness: the amended behaviour at the concrete schema `demoSchema`
and the absent attribute `"missing"`. -/
theorem c3_witness :
    gqPgSegs demoSchema "t" ["missing"] = .model "t" ∧
    (∀ path, splitChar '.' path = [path] →
      lookupAttr demoSchema "t" path = none →
      gqSql demoSchema "t" path = .error) :=
  c3_amended_resolver_behaviour demoSchema "t" "missing" [] (by decide)

/-! ## Claim C4 -/

/-- C4: the claim says a `location_id` matching no row fails with a
`NotFoundError` surfaced as a not-found result; the code instead evaluates
`(geom,) = query.first()` with `first()` returning `None` and crashes with
an uncaught `TypeError`.  Evaluating the embedded code at failing inputs: a
missing location id on a non-empty store and on an empty store both produce
the `TypeError`, not a not-found result. -/
theorem c4_missing_location_raises_typeerror :
    location demoStore "NOPE" [] none 100 = .error .typeError ∧
    location [] "L1" [] none 100 = .error .typeError := by decide

/-! ## Claim C8 -/

/-- C8 counterexample: on a store whose catalog query returns zero rows, a
fresh provider state issues the catalog query on the first `get_fields`
call *and again* on the second call — two store round-trips, contradicting
"at most once per provider instance lifetime, including when the first
query returned zero rows". -/
theorem c8_counterexample_requeries_after_empty :
    (get_fields_stateful [] ((get_fields_stateful [] ⟨[], 0⟩).2)).2.queries = 2 ∧
    ¬ (2 ≤ 1) := by decide

/-- C8 (amended): a `get_fields` call made while the cached mapping is
non-empty returns it unchanged without issuing a query; a call made while
the mapping is empty (including after a first query that returned zero
rows) issues the catalog query, so the query is issued at most once only
once some call has populated a non-empty mapping. -/
theorem c8_amended_cache_behaviour (store : List Row) (st : FieldsState) :
    (st.fields ≠ [] → get_fields_stateful store st = (st.fields, st)) ∧
    (st.fields = [] →
      (get_fields_stateful store st).2.queries = st.queries + 1 ∧
      (get_fields_stateful store st).1 = fieldsOf store ∧
      (get_fields_stateful store st).2.fields = fieldsOf store) := by
  constructor
  · intro h
    unfold get_fields_stateful
    rw [if_neg (by simpa using h)]
  · intro h
    unfold get_fields_stateful
    rw [if_pos (by simp [h])]
    exact ⟨rfl, rfl, rfl⟩

/-- C8 witness: a non-empty cached mapping is returned without querying,
and a call on the empty mapping bumps the query count. -/
theorem c8_witness :
    get_fields_stateful demoStore ⟨[("x", ⟨"number", "T", "u"⟩)], 3⟩ =
      ([("x", ⟨"number", "T", "u"⟩)], ⟨[("x", ⟨"number", "T", "u"⟩)], 3⟩) ∧
    (get_fields_stateful demoStore ⟨[], 0⟩).2.queries = 0 + 1 :=
  ⟨(c8_amended_cache_behaviour demoStore ⟨[("x", ⟨"number", "T", "u"⟩)], 3⟩).1
      (by decide),
    ((c8_amended_cache_behaviour demoStore ⟨[], 0⟩).2 rfl).1⟩

/-! ## Claim C9 -/

/-- C9: for every non-empty `location_id` and every pair of bbox arguments
(present or absent), `locations` returns the same Coverage result: the
bounding-box argument is not forwarded to `location()`. -/
theorem c9_bbox_not_forwarded (store : List Row) (sel : List String)
    (b1 b2 : Option BBox) (dt : Option String) (lim : Nat) (s : String)
    (hs : s ≠ "") :
    locations store sel b1 dt lim (some s) =
      locations store sel b2 dt lim (some s) := by
  unfold locations
  rw [if_pos (by simp [truthyId, hs]), if_pos (by simp [truthyId, hs])]

/-- C9 witness: a concrete bbox and an absent bbox give the same result for
`location_id = "L1"`. -/
theorem c9_witness :
    locations demoStore [] (some ⟨0, 0, 1, 1⟩) none 5 (some "L1") =
      locations demoStore [] none none 5 (some "L1") :=
  c9_bbox_not_forwarded demoStore [] (some ⟨0, 0, 1, 1⟩) none none 5 "L1"
    (by decide)

/-! ## Claim C5 -/

/-- C5: for every `locations()` call without a `location_id`,
`numberReturned` equals the length of the returned features list; and when
zero rows match the active filters the result is a FeatureCollection with
an empty features list and `numberReturned = 0`, not an error. -/
theorem c5_numberReturned_matches_features (store : List Row)
    (sel : List String) (bbox : Option BBox) (dt : Option String) (lim : Nat) :
    (∀ resp, locationsCore store sel bbox dt lim = .ok resp →
      resp.numberReturned = resp.features.length) ∧
    (∀ tf, parseDtFilter dt = .ok tf → activeRows store sel bbox tf = [] →
      ∃ resp, locationsCore store sel bbox dt lim = .ok resp ∧
        resp.features = [] ∧ resp.numberReturned = 0) := by
  constructor
  · intro resp h
    cases hdt : parseDtFilter dt with
    | error e =>
      unfold locationsCore at h
      rw [hdt] at h
      cases h
    | ok tf =>
      obtain ⟨hf, hn, -⟩ := locationsCore_ok hdt h
      rw [hf, hn, List.length_map]
  · intro tf hdt he
    obtain ⟨ps, hps⟩ :=
      @get_parameters_ok (fieldsOf store) []
        (fun p hp => absurd hp (List.not_mem_nil p))
    refine ⟨⟨[], ps.map (fun pr => pr.2), 0⟩, ?_, rfl, rfl⟩
    unfold locationsCore
    rw [hdt]
    dsimp only
    rw [he]
    have hc : candidatesOf ([] : List Row) = [] := rfl
    rw [hc, hps]
    simp [distinctOn, distinctOnAux, locFold]

/-- C5 witness: on `demoStore` the returned count matches the feature list,
and an unmatched parameter filter yields the empty FeatureCollection, not
an error. -/
theorem c5_witness :
    demoFC.numberReturned = demoFC.features.length ∧
    ∃ resp, locationsCore demoStore ["zzz"] none none 5 = .ok resp ∧
      resp.features = [] ∧ resp.numberReturned = 0 :=
  ⟨(c5_numberReturned_matches_features demoStore [] none none 5).1 demoFC
      (by decide),
    (c5_numberReturned_matches_features demoStore ["zzz"] none none 5).2
      .all rfl (by decide)⟩

/-! ## Claim C7 -/

/-- C7: for every limit `k` and every store, `locations(limit = k)` returns
exactly `min(k, totalDistinctLocations)` features, where
`totalDistinctLocations` is the number of distinct locations matching the
active filters. -/
theorem c7_limit_yields_min {store : List Row} {sel : List String}
    {bbox : Option BBox} {dt : Option String} {lim : Nat} {tf : TimeFilter}
    {resp : FeatureCollection}
    (hdt : parseDtFilter dt = .ok tf)
    (h : locationsCore store sel bbox dt lim = .ok resp) :
    resp.features.length = min lim (totalDistinctLocations store sel bbox tf) := by
  obtain ⟨hf, -, -⟩ := locationsCore_ok hdt h
  rw [hf, List.length_map, List.length_take]
  rfl

/-- C7 witness: `unionStore` has two distinct matching locations and
`limit = 1` returns `min 1 2 = 1` feature. -/
theorem c7_witness :
    unionFC1.features.length = min 1 (totalDistinctLocations unionStore [] none .all) :=
  @c7_limit_yields_min unionStore [] none none 1 .all unionFC1 rfl (by decide)

/-! ## Claim C10 -/

theorem mem_upsert {l : List (String × ParamDef)} {k : String} {v : ParamDef}
    {pr : String × ParamDef} (h : pr ∈ upsert l k v) : pr ∈ l ∨ pr = (k, v) := by
  induction l with
  | nil =>
    right
    simpa [upsert] using h
  | cons a l ih =>
    obtain ⟨k2, v2⟩ := a
    simp only [upsert] at h
    split at h
    · rcases List.mem_cons.1 h with rfl | h2
      · right; rfl
      · left; exact List.mem_cons_of_mem _ h2
    · rcases List.mem_cons.1 h with rfl | h2
      · left; simp
      · rcases ih h2 with h3 | h3
        · left; exact List.mem_cons_of_mem _ h3
        · right; exact h3

theorem buildParams_id_eq_key {fields : List (String × FieldMeta)}
    {ps : List String} {acc out : List (String × ParamDef)}
    (hacc : ∀ pr ∈ acc, pr.2.id = pr.1)
    (h : buildParams fields ps acc = .ok out) :
    ∀ pr ∈ out, pr.2.id = pr.1 := by
  induction ps generalizing acc with
  | nil =>
    simp only [buildParams, Except.ok.injEq] at h
    subst h
    exact hacc
  | cons p ps ih =>
    simp only [buildParams] at h
    cases hc : lookupA p fields with
    | none => rw [hc] at h; cases h
    | some c =>
      rw [hc] at h
      refine ih ?_ h
      intro pr hpr
      rcases mem_upsert hpr with h2 | h2
      · exact hacc pr h2
      · rw [h2]
        rfl

/-- C10: whenever the distinct-parameter query for a `locations()` or
`location()` call yields an empty candidate set, the returned `parameters`
block lists every parameter of the cached field catalog (its ids are
exactly the catalog keys) rather than being empty, because
`_get_parameters` falls back to all catalog keys on an empty list. -/
theorem c10_empty_candidates_full_catalog (store : List Row)
    (sel : List String) (bbox : Option BBox) (dt : Option String) (lim : Nat)
    (L : String) (tf : TimeFilter)
    (hdt : parseDtFilter dt = .ok tf) :
    (activeRows store sel bbox tf = [] →
      ∀ resp, locationsCore store sel bbox dt lim = .ok resp →
        resp.parameters.map (fun pd => pd.id) =
          (fieldsOf store).map (fun pr => pr.1)) ∧
    (covRows store L sel tf = [] →
      ∀ cov, location store L sel dt lim = .ok cov →
        cov.parameters.map (fun pr => pr.1) =
          (fieldsOf store).map (fun pr => pr.1)) := by
  constructor
  · intro he resp h
    obtain ⟨-, -, ps, hps, hpar⟩ := locationsCore_ok hdt h
    rw [he] at hps
    have hc : candidatesOf ([] : List Row) = [] := rfl
    rw [hc] at hps
    have hkeys := get_parameters_nil_keys (fieldsOf_keys_nodup store) hps
    unfold get_parameters at hps
    simp only [List.isEmpty_nil, if_true] at hps
    have hids := buildParams_id_eq_key
      (fun pr hpr => absurd hpr (List.not_mem_nil pr)) hps
    rw [hpar, List.map_map]
    rw [← hkeys]
    exact List.map_congr_left (fun pr hpr => hids pr hpr)
  · intro he cov h
    obtain ⟨-, -, ps, hps, hpar⟩ := location_ok hdt h
    rw [he] at hps
    have hc : candidatesOf ([] : List Row) = [] := rfl
    rw [hc] at hps
    rw [hpar]
    exact get_parameters_nil_keys (fieldsOf_keys_nodup store) hps

/-- C10 witness: on `demoStore` with the unmatched parameter filter
`["zzz"]`, both the FeatureCollection and the Coverage `parameters` blocks
list the full catalog `["a", "b"]`. -/
theorem c10_witness :
    demoFCZ.parameters.map (fun pd => pd.id) =
      (fieldsOf demoStore).map (fun pr => pr.1) ∧
    demoCovZ.parameters.map (fun pr => pr.1) =
      (fieldsOf demoStore).map (fun pr => pr.1) :=
  ⟨(c10_empty_candidates_full_catalog demoStore ["zzz"] none none 5 "L1" .all
      rfl).1 (by decide) demoFCZ (by decide),
    (c10_empty_candidates_full_catalog demoStore ["zzz"] none none 5 "L1" .all
      rfl).2 (by decide) demoCovZ (by decide)⟩

/-! ## Claim C6 -/

/-- When no truncation happens, a location id is returned iff some filtered
row carries it. -/
theorem mem_feature_ids {store : List Row} {sel : List String}
    {bbox : Option BBox} {dt : Option String} {lim : Nat} {tf : TimeFilter}
    {resp : FeatureCollection}
    (hdt : parseDtFilter dt = .ok tf)
    (h : locationsCore store sel bbox dt lim = .ok resp)
    (hn : (distinctOn (fun r => r.loc) (activeRows store sel bbox tf)).length ≤ lim)
    (x : String) :
    x ∈ resp.features.map (fun f => f.id) ↔
      ∃ r ∈ activeRows store sel bbox tf, r.loc = x := by
  obtain ⟨hf, -, -⟩ := locationsCore_ok hdt h
  rw [hf, List.take_of_length_le hn, List.map_map]
  have hcomp : ((fun f => f.id) ∘ toFeature (activeRows store sel bbox tf)) =
      fun r : Row => r.loc := rfl
  rw [hcomp, mem_map_distinctOn_iff]
  simp [List.mem_map]

/-- Each returned feature's `parameter-name` list only holds parameters
admitted by a non-empty parameter filter. -/
theorem feature_paramNames_subset {store : List Row} {sel : List String}
    {bbox : Option BBox} {dt : Option String} {lim : Nat} {tf : TimeFilter}
    {resp : FeatureCollection}
    (hdt : parseDtFilter dt = .ok tf)
    (h : locationsCore store sel bbox dt lim = .ok resp)
    (hne : sel ≠ []) :
    ∀ f ∈ resp.features, ∀ p ∈ f.paramNames, p ∈ sel := by
  obtain ⟨hf, -, -⟩ := locationsCore_ok hdt h
  intro f hfmem p hp
  rw [hf] at hfmem
  obtain ⟨item, hitem, rfl⟩ := List.mem_map.1 hfmem
  unfold toFeature at hp
  dsimp only at hp
  rw [mem_map_distinctOn_iff] at hp
  obtain ⟨r, hr, rfl⟩ := List.mem_map.1 hp
  have hr2 := List.mem_filter.1 hr
  have hr3 := mem_activeRows.1 hr2.1
  exact paramPred_mem hne hr3.2.2.1

/-- C6 counterexample: with `limit = 1`, two locations observing the
disjoint parameters `{"a"}` and `{"b"}`, the call with the union filter
returns only `["L1"]`, while the separate calls return `["L1"]` and
`["L2"]` — the returned feature-id set is not the union of the two
feature-id sets. -/
theorem c6_counterexample_limit_truncation :
    (locationsCore unionStore ["a", "b"] none none 1).map
        (fun r => r.features.map (fun f => f.id)) = .ok ["L1"] ∧
    (locationsCore unionStore ["a"] none none 1).map
        (fun r => r.features.map (fun f => f.id)) = .ok ["L1"] ∧
    (locationsCore unionStore ["b"] none none 1).map
        (fun r => r.features.map (fun f => f.id)) = .ok ["L2"] ∧
    "L2" ∉ (["L1"] : List String) := by decide

/-- C6 (amended): for nonempty disjoint parameter-id sets `A` and `B` and
fixed other inputs, *provided no call truncates at the limit* (the number of
distinct matching locations of each of the three calls is at most `limit`),
the set of feature ids returned by `locations(select_properties = A ++ B)`
equals the union of the feature-id sets of the calls with `A` and with `B`;
and each returned feature's `parameter-name` is a subset of the requested
parameter-id list. -/
theorem c6_amended_union_parameter_filter
    {store : List Row} {A B : List String} {bbox : Option BBox}
    {dt : Option String} {lim : Nat} {tf : TimeFilter}
    {rU rA2 rB2 : FeatureCollection}
    (hA : A ≠ []) (hB : B ≠ [])
    (_hdisj : ∀ x ∈ A, x ∉ B)
    (hdt : parseDtFilter dt = .ok tf)
    (hU : locationsCore store (A ++ B) bbox dt lim = .ok rU)
    (h1 : locationsCore store A bbox dt lim = .ok rA2)
    (h2 : locationsCore store B bbox dt lim = .ok rB2)
    (nU : (distinctOn (fun r => r.loc) (activeRows store (A ++ B) bbox tf)).length ≤ lim)
    (n1 : (distinctOn (fun r => r.loc) (activeRows store A bbox tf)).length ≤ lim)
    (n2 : (distinctOn (fun r => r.loc) (activeRows store B bbox tf)).length ≤ lim) :
    (∀ x, x ∈ rU.features.map (fun f => f.id) ↔
      (x ∈ rA2.features.map (fun f => f.id) ∨
       x ∈ rB2.features.map (fun f => f.id))) ∧
    (∀ f ∈ rU.features, ∀ p ∈ f.paramNames, p ∈ A ++ B) := by
  have hABne : A ++ B ≠ [] := by simp [hA]
  constructor
  · intro x
    rw [mem_feature_ids hdt hU nU, mem_feature_ids hdt h1 n1,
      mem_feature_ids hdt h2 n2]
    constructor
    · rintro ⟨r, hr, rfl⟩
      obtain ⟨hs, hb, hp, htm⟩ := mem_activeRows.1 hr
      rw [paramPred_append hA hB, Bool.or_eq_true] at hp
      rcases hp with hpA | hpB
      · exact Or.inl ⟨r, mem_activeRows.2 ⟨hs, hb, hpA, htm⟩, rfl⟩
      · exact Or.inr ⟨r, mem_activeRows.2 ⟨hs, hb, hpB, htm⟩, rfl⟩
    · rintro (⟨r, hr, rfl⟩ | ⟨r, hr, rfl⟩)
      · obtain ⟨hs, hb, hp, htm⟩ := mem_activeRows.1 hr
        refine ⟨r, mem_activeRows.2 ⟨hs, hb, ?_, htm⟩, rfl⟩
        rw [paramPred_append hA hB, hp, Bool.true_or]
      · obtain ⟨hs, hb, hp, htm⟩ := mem_activeRows.1 hr
        refine ⟨r, mem_activeRows.2 ⟨hs, hb, ?_, htm⟩, rfl⟩
        rw [paramPred_append hA hB, hp, Bool.or_true]
  · exact feature_paramNames_subset hdt hU hABne

/-- C6 witness: on `unionStore` with `limit = 5` (no truncation) the union
filter returns exactly the union of the two feature-id sets, and every
feature's `parameter-name` is inside the request. -/
theorem c6_witness :
    (∀ x, x ∈ unionFCU.features.map (fun f => f.id) ↔
      (x ∈ unionFCA.features.map (fun f => f.id) ∨
       x ∈ unionFCB.features.map (fun f => f.id))) ∧
    (∀ f ∈ unionFCU.features, ∀ p ∈ f.paramNames, p ∈ ["a"] ++ ["b"]) :=
  @c6_amended_union_parameter_filter unionStore ["a"] ["b"] none none 5 .all
    unionFCU unionFCA unionFCB (by decide) (by decide) (by decide) rfl
    (by decide) (by decide) (by decide) (by decide) (by decide) (by decide)

end SqlEdr
